import Mathlib

/-!
Shallow embedding of `rpgpio.py` (PyCNC): the register-level GPIO layer
(`GPIO`) and the DMA pulse-train engine (`DMAGPIO`).

Modelling conventions:
* Python integers are unbounded, so machine words are `Nat`; the bitwise
  operators `&&&`, `|||`, `^^^`, `<<<` match Python's `&`, `|`, `^`, `<<`
  on non-negative integers.  Python's `x & ~m` (with `m ≥ 0`) clears the
  bits of `m` in `x`; on `Nat` this is `x ^^^ (x &&& m)`, here `andNot`.
* The DMA descriptor buffer (`CMAPhysicalMemory`) is a byte-offset-indexed
  word store `Mem : Nat → Nat`; `write_int` / `write` of the source become
  `writeInt` / `writeWords` (word writes at 4-byte granularity).
* Hardware register accesses are recorded as an event trace (`Ev`), and the
  values the code reads back from hardware registers are supplied as
  explicit oracle arguments, so every theorem quantifies over all possible
  hardware read results.
* The constants imported from `rpgpio_private` (register offsets, control
  bits) are not part of the sources; they are kept fully abstract as fields
  of `GpioCfg` / `DmaCfg`, so the theorems hold for every value of them.
-/

/-- Python's `x & ~m` for non-negative `x`, `m`: clear in `x` every bit set
in `m`. -/
def andNot (x m : Nat) : Nat := x ^^^ (x &&& m)

/-- The descriptor buffer: a map from byte offset to the 32-bit word most
recently written at that offset. -/
def Mem : Type := Nat → Nat

/-- `CMAPhysicalMemory.write_int(offset, value)`: store one word at a byte
offset. -/
def writeInt (m : Mem) (off v : Nat) : Mem :=
  fun a => if a = off then v else m a

/-- `CMAPhysicalMemory.write(offset, data)`: store a sequence of words at
consecutive 4-byte offsets starting at `off`. -/
def writeWords (m : Mem) (off : Nat) : List Nat → Mem
  | [] => m
  | v :: vs => writeWords (writeInt m off v) (off + 4) vs

/-- Register offsets of the GPIO block, imported by the source from
`rpgpio_private` (not among the sources); kept abstract. -/
structure GpioCfg where
  GPIO_FSEL_OFFSET : Nat
  GPIO_SET_OFFSET : Nat
  GPIO_CLEAR_OFFSET : Nat
  GPIO_INPUT_OFFSET : Nat
  GPIO_PULLUPDN_OFFSET : Nat
  GPIO_PULLUPDNCLK_OFFSET : Nat

namespace Gpio

def MODE_OUTPUT : Nat := 1

def MODE_INPUT_NOPULL : Nat := 2

def MODE_INPUT_PULLUP : Nat := 3

def MODE_INPUT_PULLDOWN : Nat := 4

/-- `GPIO._pullupdn(pin, mode)` as the list of `(offset, value)` register
writes it performs.  `p1`, `p2` are the values the two `read_int` calls on
the pull-up/down control register return. -/
def pullupdn (cfg : GpioCfg) (pin mode p1 p2 : Nat) : List (Nat × Nat) :=
  let q := andNot p1 3
  let q := if mode = MODE_INPUT_PULLUP then q ||| 2
           else if mode = MODE_INPUT_PULLDOWN then q ||| 1
           else q
  let addr := 4 * (pin / 32) + cfg.GPIO_PULLUPDNCLK_OFFSET
  [(cfg.GPIO_PULLUPDN_OFFSET, q),
   (addr, 1 <<< (pin % 32)),
   (cfg.GPIO_PULLUPDN_OFFSET, andNot p2 3),
   (addr, 0)]

/-- `GPIO.init(pin, mode)` as the list of `(offset, value)` register writes
it performs.  `v` is the value read from the pin's function-select register,
`p1`, `p2` the values read from the pull control register (only used for the
input modes). -/
def init (cfg : GpioCfg) (pin mode v p1 p2 : Nat) : List (Nat × Nat) :=
  let addr := 4 * (pin / 10) + cfg.GPIO_FSEL_OFFSET
  let v1 := andNot v (7 <<< ((pin % 10) * 3))
  if mode = MODE_OUTPUT then
    [(addr, v1 ||| (1 <<< ((pin % 10) * 3)))]
  else
    (addr, v1) :: pullupdn cfg pin mode p1 p2

/-- `GPIO.set(pin)`: single write-1-to-set access. -/
def set (cfg : GpioCfg) (pin : Nat) : List (Nat × Nat) :=
  [(4 * (pin / 32) + cfg.GPIO_SET_OFFSET, 1 <<< (pin % 32))]

/-- `GPIO.clear(pin)`: single write-1-to-clear access. -/
def clear (cfg : GpioCfg) (pin : Nat) : List (Nat × Nat) :=
  [(4 * (pin / 32) + cfg.GPIO_CLEAR_OFFSET, 1 <<< (pin % 32))]

/-- `GPIO.read(pin)`: extract the pin's bit from the value `v` read from the
input-level register. -/
def read (pin v : Nat) : Nat :=
  if v &&& (1 <<< (pin % 32)) = 0 then 0 else 1

end Gpio

/-- Constants the source takes from `rpgpio_private` (not among the
sources), plus the control-block field values `DMAGPIO.__init__`
precomputes from them (`_pulse_info`, `_delay_info`, ...); all kept
abstract. -/
structure DmaCfg where
  PWM_CTL : Nat
  PWM_RNG1 : Nat
  PWM_DMAC : Nat
  CM_CNTL : Nat
  CM_DIV : Nat
  CM_PASSWORD : Nat
  CM_SRC_PLLD : Nat
  CM_ENABLE : Nat
  CM_DIV_VALUE_50 : Nat
  PWM_DMAC_VALUE : Nat
  PWM_CTL_CLRF : Nat
  PWM_CTL_USEF1 : Nat
  PWM_CTL_PWEN1 : Nat
  DMA_CS_END : Nat
  DMA_CS_ACTIVE : Nat
  DMA_CS_ABORT : Nat
  DMA_CS_RESET : Nat
  DMA_CS_PRIO_VALUE : Nat
  delay_info : Nat
  delay_destination : Nat
  delay_stride : Nat
  pulse_info : Nat
  pulse_destination : Nat
  pulse_length : Nat
  pulse_stride : Nat

/-- The mutable state of a `DMAGPIO` object: the descriptor buffer's size
(`_physmem.get_size()`), its bus address (`_physmem.get_bus_address()`),
the append cursor (`__current_address`) and the buffer contents. -/
structure DmaState where
  size : Nat
  busAddr : Nat
  cur : Nat
  mem : Mem

/-- The three peripheral register windows `DMAGPIO` maps. -/
inductive Periph where
  | pwm
  | clock
  | dma
deriving DecidableEq, Repr

/-- One hardware interaction of the engine: a register read, a register
write, or a `time.sleep` (duration in microseconds). -/
inductive Ev where
  | rd (p : Periph) (off : Nat)
  | wrE (p : Periph) (off val : Nat)
  | sleepUs (us : Nat)
deriving DecidableEq, Repr

namespace DmaGpio

def DMA_CONTROL_BLOCK_SIZE : Nat := 32

def DMA_CHANNEL : Nat := 5

/-- Byte offset of DMA channel 5's register bank: `0x100 * self._DMA_CHANNEL`. -/
def chanAddr : Nat := 0x100 * DMA_CHANNEL

/-- `DMAGPIO.add_pulse(pins_mask, length_us)`: append three 32-byte control
blocks, or fail with `MemoryError` leaving the state unchanged. -/
def add_pulse (cfg : DmaCfg) (s : DmaState) (pins_mask length_us : Nat) :
    Except String DmaState :=
  let next_cb := s.cur + 3 * DMA_CONTROL_BLOCK_SIZE
  if next_cb > s.size then .error "Out of allocated memory." else
  let next3 := next_cb + s.busAddr
  let next2 := next3 - DMA_CONTROL_BLOCK_SIZE
  let next1 := next2 - DMA_CONTROL_BLOCK_SIZE
  let source1 := next1 - 8
  let length2 := 16 * length_us
  let source3 := next3 - 8
  let data := [cfg.pulse_info, source1, cfg.pulse_destination,
                 cfg.pulse_length,
               cfg.pulse_stride, next1, pins_mask, 0,
               cfg.delay_info, 0, cfg.delay_destination, length2,
               cfg.delay_stride, next2, 0, 0,
               cfg.pulse_info, source3, cfg.pulse_destination,
                 cfg.pulse_length,
               cfg.pulse_stride, next3, 0, pins_mask]
  .ok { s with mem := writeWords s.mem s.cur data, cur := next_cb }

/-- `DMAGPIO.add_delay(delay_us)`: append one 32-byte delay control block,
or fail with `MemoryError` leaving the state unchanged. -/
def add_delay (cfg : DmaCfg) (s : DmaState) (delay_us : Nat) :
    Except String DmaState :=
  let next_cb := s.cur + DMA_CONTROL_BLOCK_SIZE
  if next_cb > s.size then .error "Out of allocated memory." else
  let next := s.busAddr + next_cb
  let source := next - 8
  let length := 16 * delay_us
  let data := [cfg.delay_info, source, cfg.delay_destination, length,
               cfg.delay_stride, next, 0, 0]
  .ok { s with mem := writeWords s.mem s.cur data, cur := next_cb }

/-- `DMAGPIO.finalize_stream()`: write 0 into the `next` word (byte offset
20) of the last appended control block. -/
def finalize_stream (s : DmaState) : DmaState :=
  { s with mem := writeInt s.mem (s.cur + 20 - DMA_CONTROL_BLOCK_SIZE) 0 }

/-- `DMAGPIO.clear()`: reset the append cursor. -/
def clear (s : DmaState) : DmaState :=
  { s with cur := 0 }

/-- The busy-wait loop of `run_stream`: poll `CM_CNTL` until bit 7 (BUSY)
reads clear, sleeping 10 µs between polls.  `oracle i` is the value the
`i`-th read returns; `fuel` bounds the modelled iterations (`none` means
the bit was still set after `fuel` polls). -/
def busyWait (cfg : DmaCfg) (oracle : Nat → Nat) (i : Nat) :
    Nat → Option (List Ev)
  | 0 => none
  | fuel + 1 =>
    if oracle i &&& (1 <<< 7) ≠ 0 then
      (busyWait cfg oracle (i + 1) fuel).map
        (fun t => Ev.rd .clock cfg.CM_CNTL :: Ev.sleepUs 10 :: t)
    else
      some [Ev.rd .clock cfg.CM_CNTL]

/-- `DMAGPIO.run_stream()` as its hardware event trace.  `oracle` supplies
the successive `CM_CNTL` read results, `csVal` the value read from the DMA
channel's status register. -/
def run_stream (cfg : DmaCfg) (s : DmaState) (oracle : Nat → Nat)
    (csVal fuel : Nat) : Option (List Ev) :=
  (busyWait cfg oracle 0 fuel).map (fun bw =>
    [Ev.wrE .pwm cfg.PWM_CTL 0,
     Ev.wrE .clock cfg.CM_CNTL (cfg.CM_PASSWORD ||| cfg.CM_SRC_PLLD)]
    ++ bw ++
    [Ev.wrE .clock cfg.CM_DIV (cfg.CM_PASSWORD ||| cfg.CM_DIV_VALUE_50),
     Ev.wrE .clock cfg.CM_CNTL
       (cfg.CM_PASSWORD ||| cfg.CM_SRC_PLLD ||| cfg.CM_ENABLE),
     Ev.wrE .pwm cfg.PWM_RNG1 100,
     Ev.wrE .pwm cfg.PWM_DMAC cfg.PWM_DMAC_VALUE,
     Ev.wrE .pwm cfg.PWM_CTL cfg.PWM_CTL_CLRF,
     Ev.wrE .pwm cfg.PWM_CTL (cfg.PWM_CTL_USEF1 ||| cfg.PWM_CTL_PWEN1),
     Ev.rd .dma chanAddr,
     Ev.wrE .dma chanAddr (csVal ||| cfg.DMA_CS_END),
     Ev.wrE .dma (chanAddr + 4) s.busAddr,
     Ev.wrE .dma chanAddr cfg.DMA_CS_PRIO_VALUE,
     Ev.wrE .dma chanAddr (cfg.DMA_CS_PRIO_VALUE ||| cfg.DMA_CS_ACTIVE)])

/-- `DMAGPIO.run(loop)`: fail with `RuntimeError` when nothing was added;
otherwise rewrite the last block's `next` word (to the buffer's bus address
when `loop`, to 0 via `finalize_stream` otherwise) and then perform
`run_stream`'s hardware programming.  Returns the updated buffer state and
the hardware event trace. -/
def run (cfg : DmaCfg) (s : DmaState) (loop : Bool) (oracle : Nat → Nat)
    (csVal fuel : Nat) : Except String (DmaState × Option (List Ev)) :=
  if s.cur = 0 then .error "Nothing was added." else
  let s2 :=
    if loop then
      { s with mem := writeInt s.mem (s.cur + 20 - DMA_CONTROL_BLOCK_SIZE)
                        s.busAddr }
    else finalize_stream s
  .ok (s2, run_stream cfg s2 oracle csVal fuel)

/-- `DMAGPIO.stop()` as its hardware event trace; `csVal` is the value read
from the DMA channel's status register. -/
def stop (cfg : DmaCfg) (csVal : Nat) : List Ev :=
  let cs1 := csVal ||| cfg.DMA_CS_ABORT
  let cs2 := andNot cs1 cfg.DMA_CS_ACTIVE
  let cs3 := cs2 ||| cfg.DMA_CS_RESET
  [Ev.wrE .pwm cfg.PWM_CTL 0,
   Ev.rd .dma chanAddr,
   Ev.wrE .dma chanAddr cs1,
   Ev.wrE .dma chanAddr cs2,
   Ev.wrE .dma chanAddr cs3]

/-- `DMAGPIO.is_active()`: test the ACTIVE bit in the status value read. -/
def is_active (cfg : DmaCfg) (csVal : Nat) : Bool :=
  csVal &&& cfg.DMA_CS_ACTIVE == cfg.DMA_CS_ACTIVE

end DmaGpio

/-- One buffer-building call on the engine. -/
inductive Op where
  | pulse (mask len : Nat)
  | delay (len : Nat)
  | clearall
deriving DecidableEq, Repr

/-- Apply one building call; a `MemoryError` propagates to the caller and
leaves the engine state as it was. -/
def stepOp (cfg : DmaCfg) (s : DmaState) : Op → DmaState
  | .pulse m l =>
    match DmaGpio.add_pulse cfg s m l with
    | .ok t => t
    | .error _ => s
  | .delay l =>
    match DmaGpio.add_delay cfg s l with
    | .ok t => t
    | .error _ => s
  | .clearall => DmaGpio.clear s

/-- Apply a sequence of building calls. -/
def stepOps (cfg : DmaCfg) (s : DmaState) (ops : List Op) : DmaState :=
  ops.foldl (stepOp cfg) s

/-! ### Concrete fixtures used to evaluate the theorems -/

/-- A concrete instantiation of the abstract `rpgpio_private` constants
(arbitrary values; every theorem holds for all instantiations). -/
def cfg0 : DmaCfg where
  PWM_CTL := 0
  PWM_RNG1 := 16
  PWM_DMAC := 8
  CM_CNTL := 160
  CM_DIV := 164
  CM_PASSWORD := 1509949440
  CM_SRC_PLLD := 6
  CM_ENABLE := 16
  CM_DIV_VALUE_50 := 204800
  PWM_DMAC_VALUE := 2147487503
  PWM_CTL_CLRF := 64
  PWM_CTL_USEF1 := 32
  PWM_CTL_PWEN1 := 1
  DMA_CS_END := 2
  DMA_CS_ACTIVE := 1
  DMA_CS_ABORT := 1073741824
  DMA_CS_RESET := 2147483648
  DMA_CS_PRIO_VALUE := 893386752
  delay_info := 1342179399
  delay_destination := 2122383384
  delay_stride := 0
  pulse_info := 434
  pulse_destination := 2122383388
  pulse_length := 131076
  pulse_stride := 786436

/-- A concrete instantiation of the abstract GPIO register offsets. -/
def gcfg0 : GpioCfg := ⟨0, 28, 40, 52, 148, 152⟩

/-- All-zero buffer contents. -/
def memZero : Mem := fun _ => 0

/-- A freshly constructed engine over a 256-byte buffer at bus address 1024. -/
def stFresh : DmaState := ⟨256, 1024, 0, memZero⟩

/-- An engine over a size-0 buffer: every append exceeds capacity. -/
def stTiny : DmaState := ⟨0, 1024, 0, memZero⟩

/-- A fresh engine over a 96-byte buffer: one `add_pulse` is an exact fit. -/
def stFit96 : DmaState := ⟨96, 1024, 0, memZero⟩

/-- A fresh engine over a 32-byte buffer: one `add_delay` is an exact fit. -/
def stFit32 : DmaState := ⟨32, 1024, 0, memZero⟩

/-- An engine state after one `add_pulse` worth of appends (cursor 96). -/
def stBuilt : DmaState := ⟨256, 1024, 96, memZero⟩

/-! ### Helper lemmas -/

theorem writeInt_self (m : Mem) (off v : Nat) : writeInt m off v off = v := by
  simp [writeInt]

theorem writeInt_other (m : Mem) (off v a : Nat) (h : a ≠ off) :
    writeInt m off v a = m a := by
  simp [writeInt, h]

/-- Reading back from a multi-word write: offsets `off + 4*i` with
`i < l.length` return the `i`-th written word, every other offset is
untouched. -/
theorem writeWords_apply (l : List Nat) (m : Mem) (off a : Nat) :
    writeWords m off l a =
      if off ≤ a ∧ (a - off) % 4 = 0 ∧ (a - off) / 4 < l.length
      then l.getD ((a - off) / 4) 0 else m a := by
  induction l generalizing m off with
  | nil => simp [writeWords]
  | cons v vs ih =>
    have hlen : (v :: vs).length = vs.length + 1 := List.length_cons v vs
    rw [writeWords, ih]
    by_cases ha : a = off
    · subst ha
      rw [if_neg (by omega), writeInt_self]
      rw [if_pos (by omega)]
      simp
    · rw [writeInt_other m off v a ha]
      by_cases h1 : off + 4 ≤ a ∧ (a - (off + 4)) % 4 = 0 ∧
          (a - (off + 4)) / 4 < vs.length
      · rw [if_pos h1, if_pos (by omega)]
        have hidx : (a - off) / 4 = (a - (off + 4)) / 4 + 1 := by omega
        rw [hidx]
        simp
      · rw [if_neg h1, if_neg (by omega)]

/-- Reading back the `i`-th word of a multi-word write. -/
theorem writeWords_at (l : List Nat) (m : Mem) (off i : Nat) (h : i < l.length) :
    writeWords m off l (off + 4 * i) = l.getD i 0 := by
  rw [writeWords_apply, if_pos ⟨by omega, by omega, by omega⟩]
  have h4 : off + 4 * i - off = 4 * i := by omega
  rw [h4]
  have hi : 4 * i / 4 = i := by omega
  rw [hi]

/-- A multi-word write leaves every offset outside `[off, off + 4*len)`
untouched. -/
theorem writeWords_frame (l : List Nat) (m : Mem) (off a : Nat)
    (h : a < off ∨ off + 4 * l.length ≤ a) : writeWords m off l a = m a := by
  rw [writeWords_apply, if_neg (by omega)]

/-- `andNot` clears exactly the bits of the mask. -/
theorem andNot_and (x m : Nat) : andNot x m &&& m = 0 := by
  apply Nat.eq_of_testBit_eq
  intro i
  simp [andNot, Nat.testBit_xor, Nat.testBit_and]

/-- Or-ing a value in then masking by it gives it back. -/
theorem or_and_absorb (x y : Nat) : (x ||| y) &&& y = y := by
  apply Nat.eq_of_testBit_eq
  intro i
  simp [Nat.testBit_or, Nat.testBit_and]
  cases hx : x.testBit i <;> cases hy : y.testBit i <;> simp

/-- Masking an or of a mask-clean value and a sub-mask value extracts the
latter. -/
theorem or_and_of (q b m : Nat) (hq : q &&& m = 0) (hb : b &&& m = b) :
    (q ||| b) &&& m = b := by
  apply Nat.eq_of_testBit_eq
  intro i
  have h1 : (q &&& m).testBit i = false := by rw [hq]; exact Nat.zero_testBit i
  have h2 : (b &&& m).testBit i = b.testBit i := by rw [hb]
  simp [Nat.testBit_and, Nat.testBit_or] at h1 h2 ⊢
  cases hqi : q.testBit i <;> cases hbi : b.testBit i <;> cases hmi : m.testBit i <;>
    simp_all

/-! ### Claims -/

/-- Claim C1: for every pinsMask within the first 32 GPIO lines and every
lengthMicroseconds > 0 (and room for 96 bytes, cf. C2), `add_pulse` appends
exactly three 32-byte descriptor blocks at the current append cursor: a set
block whose source address is the bus address of its own two trailing words
and whose trailing payload is `[pinsMask, 0]`, a delay block whose
transfer-length word is `16 * lengthMicroseconds`, and a clear block with
trailing payload `[0, pinsMask]`; each block's next field holds the bus
address of the following block, the third block's next holds the bus address
of the next free append position, the append cursor advances by exactly 96
bytes, and no buffer word outside the three new blocks changes. -/
theorem c1_add_pulse_appends_three_blocks (cfg : DmaCfg) (s : DmaState)
    (pins_mask length_us : Nat)
    (_hmask : pins_mask < 2 ^ 32) (_hlen : 0 < length_us)
    (hcap : s.cur + 96 ≤ s.size) :
    ∃ s', DmaGpio.add_pulse cfg s pins_mask length_us = Except.ok s' ∧
      s'.size = s.size ∧ s'.busAddr = s.busAddr ∧
      s'.cur = s.cur + 96 ∧
      s'.mem s.cur = cfg.pulse_info ∧
      s'.mem (s.cur + 4) = s.busAddr + s.cur + 24 ∧
      s'.mem (s.cur + 8) = cfg.pulse_destination ∧
      s'.mem (s.cur + 12) = cfg.pulse_length ∧
      s'.mem (s.cur + 16) = cfg.pulse_stride ∧
      s'.mem (s.cur + 20) = s.busAddr + s.cur + 32 ∧
      s'.mem (s.cur + 24) = pins_mask ∧
      s'.mem (s.cur + 28) = 0 ∧
      s'.mem (s.cur + 32) = cfg.delay_info ∧
      s'.mem (s.cur + 40) = cfg.delay_destination ∧
      s'.mem (s.cur + 44) = 16 * length_us ∧
      s'.mem (s.cur + 52) = s.busAddr + s.cur + 64 ∧
      s'.mem (s.cur + 64) = cfg.pulse_info ∧
      s'.mem (s.cur + 68) = s.busAddr + s.cur + 88 ∧
      s'.mem (s.cur + 84) = s.busAddr + s.cur + 96 ∧
      s'.mem (s.cur + 88) = 0 ∧
      s'.mem (s.cur + 92) = pins_mask ∧
      (∀ a, a < s.cur ∨ s.cur + 96 ≤ a → s'.mem a = s.mem a) := by
  have hif : ¬ (s.cur + 3 * 32 > s.size) := by omega
  simp only [DmaGpio.add_pulse, DmaGpio.DMA_CONTROL_BLOCK_SIZE, if_neg hif]
  refine ⟨_, rfl, rfl, rfl, ?_, ?_, ?_, ?_, ?_, ?_, ?_, ?_, ?_, ?_, ?_, ?_,
    ?_, ?_, ?_, ?_, ?_, ?_, ?_⟩ <;> dsimp only
  · rw [writeWords_apply, if_pos ⟨Nat.le_refl _, by omega, by
      simp only [List.length_cons, List.length_nil]; omega⟩]
    rw [Nat.sub_self, Nat.zero_div]
    rfl
  · rw [show s.cur + 4 = s.cur + 4 * 1 by omega,
      writeWords_at _ _ _ 1 (by simp)]
    show s.cur + 3 * 32 + s.busAddr - 32 - 32 - 8 = s.busAddr + s.cur + 24
    omega
  · rw [show s.cur + 8 = s.cur + 4 * 2 by omega,
      writeWords_at _ _ _ 2 (by simp)]
    rfl
  · rw [show s.cur + 12 = s.cur + 4 * 3 by omega,
      writeWords_at _ _ _ 3 (by simp)]
    rfl
  · rw [show s.cur + 16 = s.cur + 4 * 4 by omega,
      writeWords_at _ _ _ 4 (by simp)]
    rfl
  · rw [show s.cur + 20 = s.cur + 4 * 5 by omega,
      writeWords_at _ _ _ 5 (by simp)]
    show s.cur + 3 * 32 + s.busAddr - 32 - 32 = s.busAddr + s.cur + 32
    omega
  · rw [show s.cur + 24 = s.cur + 4 * 6 by omega,
      writeWords_at _ _ _ 6 (by simp)]
    rfl
  · rw [show s.cur + 28 = s.cur + 4 * 7 by omega,
      writeWords_at _ _ _ 7 (by simp)]
    rfl
  · rw [show s.cur + 32 = s.cur + 4 * 8 by omega,
      writeWords_at _ _ _ 8 (by simp)]
    rfl
  · rw [show s.cur + 40 = s.cur + 4 * 10 by omega,
      writeWords_at _ _ _ 10 (by simp)]
    rfl
  · rw [show s.cur + 44 = s.cur + 4 * 11 by omega,
      writeWords_at _ _ _ 11 (by simp)]
    rfl
  · rw [show s.cur + 52 = s.cur + 4 * 13 by omega,
      writeWords_at _ _ _ 13 (by simp)]
    show s.cur + 3 * 32 + s.busAddr - 32 = s.busAddr + s.cur + 64
    omega
  · rw [show s.cur + 64 = s.cur + 4 * 16 by omega,
      writeWords_at _ _ _ 16 (by simp)]
    rfl
  · rw [show s.cur + 68 = s.cur + 4 * 17 by omega,
      writeWords_at _ _ _ 17 (by simp)]
    show s.cur + 3 * 32 + s.busAddr - 8 = s.busAddr + s.cur + 88
    omega
  · rw [show s.cur + 84 = s.cur + 4 * 21 by omega,
      writeWords_at _ _ _ 21 (by simp)]
    show s.cur + 3 * 32 + s.busAddr = s.busAddr + s.cur + 96
    omega
  · rw [show s.cur + 88 = s.cur + 4 * 22 by omega,
      writeWords_at _ _ _ 22 (by simp)]
    rfl
  · rw [show s.cur + 92 = s.cur + 4 * 23 by omega,
      writeWords_at _ _ _ 23 (by simp)]
    rfl
  · intro a ha
    rw [writeWords_frame]
    simp only [List.length_cons, List.length_nil]
    omega

/-- Evaluation of C1 at a concrete input: one `add_pulse(mask=1, 100 µs)`
on a fresh engine. -/
theorem c1_witness :
    ∃ s', DmaGpio.add_pulse cfg0 stFresh 1 100 = Except.ok s' ∧
      s'.cur = stFresh.cur + 96 ∧
      s'.mem (stFresh.cur + 24) = 1 ∧
      s'.mem (stFresh.cur + 44) = 16 * 100 ∧
      s'.mem (stFresh.cur + 92) = 1 := by
  obtain ⟨s', hok, -, -, hcur, -, -, -, -, -, -, h24, -, -, -, h44, -, -, -,
    -, -, h92, -⟩ :=
    c1_add_pulse_appends_three_blocks cfg0 stFresh 1 100 (by norm_num)
      (by norm_num) (by norm_num [stFresh])
  exact ⟨s', hok, hcur, h24, h44, h92⟩

/-- Claim C2: if an `add_pulse` or `add_delay` call would advance the append
cursor beyond the buffer capacity, the call fails with the capacity error
and is atomic: the append cursor and every previously written buffer word
are unchanged (the returned state is exactly the input state), so all
previously appended blocks remain a valid, runnable prefix. -/
theorem c2_capacity_error_atomic (cfg : DmaCfg) (s : DmaState)
    (pins_mask length_us delay_us : Nat) :
    (s.size < s.cur + 3 * 32 →
      DmaGpio.add_pulse cfg s pins_mask length_us =
        Except.error "Out of allocated memory." ∧
      stepOp cfg s (Op.pulse pins_mask length_us) = s) ∧
    (s.size < s.cur + 32 →
      DmaGpio.add_delay cfg s delay_us =
        Except.error "Out of allocated memory." ∧
      stepOp cfg s (Op.delay delay_us) = s) := by
  constructor
  · intro h
    have he : DmaGpio.add_pulse cfg s pins_mask length_us =
        Except.error "Out of allocated memory." := by
      simp only [DmaGpio.add_pulse, DmaGpio.DMA_CONTROL_BLOCK_SIZE,
        if_pos (show s.cur + 3 * 32 > s.size by omega)]
    exact ⟨he, by simp [stepOp, he]⟩
  · intro h
    have he : DmaGpio.add_delay cfg s delay_us =
        Except.error "Out of allocated memory." := by
      simp only [DmaGpio.add_delay, DmaGpio.DMA_CONTROL_BLOCK_SIZE,
        if_pos (show s.cur + 32 > s.size by omega)]
    exact ⟨he, by simp [stepOp, he]⟩

/-- Evaluation of C2 on a full (size-0) buffer. -/
theorem c2_witness :
    (DmaGpio.add_pulse cfg0 stTiny 1 5 =
        Except.error "Out of allocated memory." ∧
      stepOp cfg0 stTiny (Op.pulse 1 5) = stTiny) ∧
    (DmaGpio.add_delay cfg0 stTiny 5 =
        Except.error "Out of allocated memory." ∧
      stepOp cfg0 stTiny (Op.delay 5) = stTiny) := by
  have h := c2_capacity_error_atomic cfg0 stTiny 1 5 5
  exact ⟨h.1 (by decide), h.2 (by decide)⟩

/-- Claim C3: `run(loop)` fails with the state error exactly when the append
cursor is at the buffer start (nothing appended since construction or the
last `clear()`); the failing branch returns before updating the buffer or
emitting any hardware event, and in the non-failing case it returns a
result. -/
theorem c3_run_empty_fails (cfg : DmaCfg) (s : DmaState) (loop : Bool)
    (oracle : Nat → Nat) (csVal fuel : Nat) :
    (DmaGpio.run cfg s loop oracle csVal fuel =
        Except.error "Nothing was added." ↔ s.cur = 0) ∧
    (∀ e, DmaGpio.run cfg s loop oracle csVal fuel = Except.error e →
      s.cur = 0) := by
  by_cases h : s.cur = 0
  · refine ⟨⟨fun _ => h, fun _ => ?_⟩, fun _ _ => h⟩
    simp only [DmaGpio.run, if_pos h]
  · constructor
    · constructor
      · intro he
        rw [DmaGpio.run, if_neg h] at he
        exact Except.noConfusion he
      · intro hc
        exact absurd hc h
    · intro e he
      rw [DmaGpio.run, if_neg h] at he
      exact Except.noConfusion he

/-- Evaluation of C3: `run` on a fresh engine fails, on a built-up engine
succeeds. -/
theorem c3_witness :
    DmaGpio.run cfg0 stFresh false (fun _ => 0) 0 1 =
      Except.error "Nothing was added." ∧
    ¬ DmaGpio.run cfg0 stBuilt false (fun _ => 0) 0 1 =
      Except.error "Nothing was added." := by
  refine ⟨(c3_run_empty_fails cfg0 stFresh false (fun _ => 0) 0 1).1.mpr rfl,
    fun he => ?_⟩
  have h0 := (c3_run_empty_fails cfg0 stBuilt false (fun _ => 0) 0 1).1.mp he
  exact absurd h0 (by decide)

/-- Claim C4: `finalize_stream()` writes 0 into the next field — byte offset
20 within the most recently appended 32-byte block, i.e. buffer offset
`cur - 32 + 20` — touching nothing else; `run(loop=true)` instead writes the
chain head's bus address (the buffer's bus address) into that same field;
`run(loop=false)` finalizes the stream and then performs `run_stream`'s
hardware programming. -/
theorem c4_finalize_and_loop_next_field (cfg : DmaCfg) (s : DmaState)
    (oracle : Nat → Nat) (csVal fuel : Nat) (h : 32 ≤ s.cur) :
    s.cur + 20 - 32 = (s.cur - 32) + 20 ∧
    (DmaGpio.finalize_stream s).mem (s.cur + 20 - 32) = 0 ∧
    (∀ a, a ≠ s.cur + 20 - 32 → (DmaGpio.finalize_stream s).mem a = s.mem a) ∧
    (DmaGpio.finalize_stream s).cur = s.cur ∧
    DmaGpio.run cfg s true oracle csVal fuel =
      Except.ok ({ s with mem := writeInt s.mem (s.cur + 20 - 32) s.busAddr },
        DmaGpio.run_stream cfg
          { s with mem := writeInt s.mem (s.cur + 20 - 32) s.busAddr }
          oracle csVal fuel) ∧
    writeInt s.mem (s.cur + 20 - 32) s.busAddr (s.cur + 20 - 32) = s.busAddr ∧
    DmaGpio.run cfg s false oracle csVal fuel =
      Except.ok (DmaGpio.finalize_stream s,
        DmaGpio.run_stream cfg (DmaGpio.finalize_stream s) oracle csVal fuel) := by
  have hne : ¬ s.cur = 0 := by omega
  refine ⟨by omega, ?_, ?_, rfl, ?_, writeInt_self _ _ _, ?_⟩
  · simp only [DmaGpio.finalize_stream, DmaGpio.DMA_CONTROL_BLOCK_SIZE]
    exact writeInt_self _ _ _
  · intro a ha
    simp only [DmaGpio.finalize_stream, DmaGpio.DMA_CONTROL_BLOCK_SIZE]
    exact writeInt_other _ _ _ _ ha
  · simp [DmaGpio.run, DmaGpio.DMA_CONTROL_BLOCK_SIZE, hne]
  · simp [DmaGpio.run, hne]

/-- Evaluation of C4 on a built-up engine (cursor 96). -/
theorem c4_witness :
    (DmaGpio.finalize_stream stBuilt).mem (stBuilt.cur + 20 - 32) = 0 ∧
    DmaGpio.run cfg0 stBuilt false (fun _ => 0) 0 1 =
      Except.ok (DmaGpio.finalize_stream stBuilt,
        DmaGpio.run_stream cfg0 (DmaGpio.finalize_stream stBuilt)
          (fun _ => 0) 0 1) := by
  have h := c4_finalize_and_loop_next_field cfg0 stBuilt (fun _ => 0) 0 1
    (by decide)
  exact ⟨h.2.1, h.2.2.2.2.2.2⟩

/-- Claim C7: `clear()` only resets the append cursor to the buffer start —
it performs no hardware register access (it is a pure state update) and does
not modify buffer memory — and an engine after `clear()` is exactly a
freshly constructed engine over the same buffer, so every subsequent
append/run sequence produces the same buffer contents and hardware trace. -/
theorem c7_clear_is_fresh (cfg : DmaCfg) (s : DmaState) :
    DmaGpio.clear s =
      (⟨s.size, s.busAddr, 0, s.mem⟩ : DmaState) ∧
    (DmaGpio.clear s).mem = s.mem ∧
    (DmaGpio.clear s).cur = 0 ∧
    (∀ ops : List Op, stepOps cfg (DmaGpio.clear s) ops =
      stepOps cfg (⟨s.size, s.busAddr, 0, s.mem⟩ : DmaState) ops) ∧
    (∀ (ops : List Op) (loop : Bool) (oracle : Nat → Nat) (csVal fuel : Nat),
      DmaGpio.run cfg (stepOps cfg (DmaGpio.clear s) ops) loop oracle
          csVal fuel =
        DmaGpio.run cfg (stepOps cfg (⟨s.size, s.busAddr, 0, s.mem⟩ : DmaState)
          ops) loop oracle csVal fuel) :=
  ⟨rfl, rfl, rfl, fun _ => rfl, fun _ _ _ _ _ => rfl⟩

/-- No building call changes the buffer size. -/
theorem stepOp_size (cfg : DmaCfg) (s : DmaState) (op : Op) :
    (stepOp cfg s op).size = s.size := by
  cases op with
  | pulse m l =>
    by_cases h : s.cur + 3 * 32 > s.size
    · simp [stepOp, DmaGpio.add_pulse, DmaGpio.DMA_CONTROL_BLOCK_SIZE,
        if_pos h]
    · simp [stepOp, DmaGpio.add_pulse, DmaGpio.DMA_CONTROL_BLOCK_SIZE,
        if_neg h]
  | delay l =>
    by_cases h : s.cur + 32 > s.size
    · simp [stepOp, DmaGpio.add_delay, DmaGpio.DMA_CONTROL_BLOCK_SIZE,
        if_pos h]
    · simp [stepOp, DmaGpio.add_delay, DmaGpio.DMA_CONTROL_BLOCK_SIZE,
        if_neg h]
  | clearall => rfl

/-- A building call keeps the cursor within capacity. -/
theorem stepOp_cur_le (cfg : DmaCfg) (s : DmaState) (op : Op)
    (h : s.cur ≤ s.size) : (stepOp cfg s op).cur ≤ s.size := by
  cases op with
  | pulse m l =>
    by_cases hc : s.cur + 3 * 32 > s.size
    · simpa [stepOp, DmaGpio.add_pulse, DmaGpio.DMA_CONTROL_BLOCK_SIZE,
        if_pos hc] using h
    · simp [stepOp, DmaGpio.add_pulse, DmaGpio.DMA_CONTROL_BLOCK_SIZE,
        if_neg hc]
      omega
  | delay l =>
    by_cases hc : s.cur + 32 > s.size
    · simpa [stepOp, DmaGpio.add_delay, DmaGpio.DMA_CONTROL_BLOCK_SIZE,
        if_pos hc] using h
    · simp [stepOp, DmaGpio.add_delay, DmaGpio.DMA_CONTROL_BLOCK_SIZE,
        if_neg hc]
      omega
  | clearall => exact Nat.zero_le _

/-- Appends never move the cursor backwards. -/
theorem stepOp_cur_mono (cfg : DmaCfg) (s : DmaState) (op : Op)
    (hop : op ≠ Op.clearall) : s.cur ≤ (stepOp cfg s op).cur := by
  cases op with
  | pulse m l =>
    by_cases hc : s.cur + 3 * 32 > s.size
    · simp [stepOp, DmaGpio.add_pulse, DmaGpio.DMA_CONTROL_BLOCK_SIZE,
        if_pos hc]
    · simp [stepOp, DmaGpio.add_pulse, DmaGpio.DMA_CONTROL_BLOCK_SIZE,
        if_neg hc]
  | delay l =>
    by_cases hc : s.cur + 32 > s.size
    · simp [stepOp, DmaGpio.add_delay, DmaGpio.DMA_CONTROL_BLOCK_SIZE,
        if_pos hc]
    · simp [stepOp, DmaGpio.add_delay, DmaGpio.DMA_CONTROL_BLOCK_SIZE,
        if_neg hc]
  | clearall => exact absurd rfl hop

/-- Claim C8: over every sequence of `add_pulse`, `add_delay` and `clear`
calls starting within capacity, the append cursor never exceeds the buffer
capacity (which itself never changes), and it is monotonically
non-decreasing across appends — only `clear()` moves it back, to the buffer
start. -/
theorem c8_cursor_invariant (cfg : DmaCfg) (s : DmaState) (ops : List Op)
    (h : s.cur ≤ s.size) :
    (stepOps cfg s ops).cur ≤ (stepOps cfg s ops).size ∧
    (stepOps cfg s ops).size = s.size ∧
    ((∀ op ∈ ops, op ≠ Op.clearall) → s.cur ≤ (stepOps cfg s ops).cur) ∧
    (stepOp cfg s Op.clearall).cur = 0 := by
  induction ops generalizing s with
  | nil => exact ⟨h, rfl, fun _ => Nat.le_refl _, rfl⟩
  | cons op ops ih =>
    have hstep : stepOps cfg s (op :: ops) = stepOps cfg (stepOp cfg s op) ops :=
      rfl
    have h1 : (stepOp cfg s op).cur ≤ (stepOp cfg s op).size := by
      rw [stepOp_size]
      exact stepOp_cur_le cfg s op h
    obtain ⟨ha, hb, hc, -⟩ := ih (stepOp cfg s op) h1
    refine ⟨by rw [hstep]; exact ha, ?_, ?_, rfl⟩
    · rw [hstep, hb, stepOp_size]
    · intro hall
      rw [hstep]
      have hmono := stepOp_cur_mono cfg s op (hall op (List.mem_cons_self op ops))
      exact Nat.le_trans hmono (hc fun o ho => hall o (List.mem_cons_of_mem _ ho))

/-- Evaluation of C8 on a concrete operation sequence. -/
theorem c8_witness :
    (stepOps cfg0 stFresh [Op.pulse 1 5, Op.delay 3, Op.clearall,
        Op.delay 2]).cur ≤
      (stepOps cfg0 stFresh [Op.pulse 1 5, Op.delay 3, Op.clearall,
        Op.delay 2]).size ∧
    (stepOps cfg0 stFresh [Op.pulse 1 5, Op.delay 3, Op.clearall,
        Op.delay 2]).size = stFresh.size := by
  have h := c8_cursor_invariant cfg0 stFresh
    [Op.pulse 1 5, Op.delay 3, Op.clearall, Op.delay 2] (by decide)
  exact ⟨h.1, h.2.1⟩

/-- Claim C10: for both `add_pulse` and `add_delay`, an append whose new
cursor position equals the buffer capacity exactly succeeds; the capacity
error is raised exactly when the new cursor would strictly exceed the
capacity, so the descriptor buffer can be filled to its last byte. -/
theorem c10_exact_fit_succeeds (cfg : DmaCfg) (s : DmaState)
    (pins_mask length_us delay_us : Nat) :
    ((∃ e, DmaGpio.add_pulse cfg s pins_mask length_us = Except.error e) ↔
      s.size < s.cur + 3 * 32) ∧
    ((∃ e, DmaGpio.add_delay cfg s delay_us = Except.error e) ↔
      s.size < s.cur + 32) ∧
    (s.cur + 3 * 32 = s.size →
      ∃ s', DmaGpio.add_pulse cfg s pins_mask length_us = Except.ok s' ∧
        s'.cur = s.size) ∧
    (s.cur + 32 = s.size →
      ∃ s', DmaGpio.add_delay cfg s delay_us = Except.ok s' ∧
        s'.cur = s.size) := by
  refine ⟨?_, ?_, ?_, ?_⟩
  · by_cases h : s.cur + 3 * 32 > s.size
    · simp only [DmaGpio.add_pulse, DmaGpio.DMA_CONTROL_BLOCK_SIZE, if_pos h]
      exact ⟨fun _ => by omega, fun _ => ⟨_, rfl⟩⟩
    · simp only [DmaGpio.add_pulse, DmaGpio.DMA_CONTROL_BLOCK_SIZE, if_neg h]
      constructor
      · rintro ⟨e, he⟩
        exact Except.noConfusion he
      · intro hlt
        exact absurd hlt (by omega)
  · by_cases h : s.cur + 32 > s.size
    · simp only [DmaGpio.add_delay, DmaGpio.DMA_CONTROL_BLOCK_SIZE, if_pos h]
      exact ⟨fun _ => by omega, fun _ => ⟨_, rfl⟩⟩
    · simp only [DmaGpio.add_delay, DmaGpio.DMA_CONTROL_BLOCK_SIZE, if_neg h]
      constructor
      · rintro ⟨e, he⟩
        exact Except.noConfusion he
      · intro hlt
        exact absurd hlt (by omega)
  · intro heq
    simp only [DmaGpio.add_pulse, DmaGpio.DMA_CONTROL_BLOCK_SIZE,
      if_neg (show ¬ s.cur + 3 * 32 > s.size by omega)]
    exact ⟨_, rfl, by dsimp only; omega⟩
  · intro heq
    simp only [DmaGpio.add_delay, DmaGpio.DMA_CONTROL_BLOCK_SIZE,
      if_neg (show ¬ s.cur + 32 > s.size by omega)]
    exact ⟨_, rfl, by dsimp only; omega⟩

/-- Evaluation of C10: exact-fit appends on 96- and 32-byte buffers. -/
theorem c10_witness :
    (∃ s', DmaGpio.add_pulse cfg0 stFit96 3 7 = Except.ok s' ∧
      s'.cur = stFit96.size) ∧
    (∃ s', DmaGpio.add_delay cfg0 stFit32 7 = Except.ok s' ∧
      s'.cur = stFit32.size) :=
  ⟨(c10_exact_fit_succeeds cfg0 stFit96 3 7 7).2.2.1 (by decide),
   (c10_exact_fit_succeeds cfg0 stFit32 3 7 7).2.2.2 (by decide)⟩

/-- Claim C5: for every pin and every input mode (no-pull, pull-up,
pull-down), `init(pin, mode)` performs exactly this write sequence: first
clear the pin's 3-bit function-select field to input, then write the desired
pull-state bits (2 pull-up, 1 pull-down, 0 no-pull) into the low two bits of
the pull control register, strobe the pin's per-bank clock register with
only that pin's bit set, then clear the control bits and write 0 to the
clock register.  The extra conjuncts state the bit-level reading: the
function-select field of the first written value is zero, the second write
carries exactly the pull bits in its low two bits, the fourth write has
cleared low bits, and the strobe value is the single bit `2 ^ (pin % 32)`. -/
theorem c5_init_input_pull_protocol (cfg : GpioCfg) (pin mode v p1 p2 : Nat)
    (hmode : mode = Gpio.MODE_INPUT_NOPULL ∨ mode = Gpio.MODE_INPUT_PULLUP ∨
      mode = Gpio.MODE_INPUT_PULLDOWN) :
    Gpio.init cfg pin mode v p1 p2 =
      [(4 * (pin / 10) + cfg.GPIO_FSEL_OFFSET,
          andNot v (7 <<< ((pin % 10) * 3))),
       (cfg.GPIO_PULLUPDN_OFFSET, andNot p1 3 |||
          (if mode = Gpio.MODE_INPUT_PULLUP then 2
           else if mode = Gpio.MODE_INPUT_PULLDOWN then 1 else 0)),
       (4 * (pin / 32) + cfg.GPIO_PULLUPDNCLK_OFFSET, 1 <<< (pin % 32)),
       (cfg.GPIO_PULLUPDN_OFFSET, andNot p2 3),
       (4 * (pin / 32) + cfg.GPIO_PULLUPDNCLK_OFFSET, 0)] ∧
    andNot v (7 <<< ((pin % 10) * 3)) &&& (7 <<< ((pin % 10) * 3)) = 0 ∧
    (andNot p1 3 |||
        (if mode = Gpio.MODE_INPUT_PULLUP then 2
         else if mode = Gpio.MODE_INPUT_PULLDOWN then 1 else 0)) &&& 3 =
      (if mode = Gpio.MODE_INPUT_PULLUP then 2
       else if mode = Gpio.MODE_INPUT_PULLDOWN then 1 else 0) ∧
    andNot p2 3 &&& 3 = 0 ∧
    1 <<< (pin % 32) = 2 ^ (pin % 32) := by
  refine ⟨?_, andNot_and _ _, ?_, andNot_and _ _, by
    simp [Nat.shiftLeft_eq]⟩
  · rcases hmode with h | h | h <;> subst h <;>
      simp [Gpio.init, Gpio.pullupdn, Gpio.MODE_OUTPUT, Gpio.MODE_INPUT_NOPULL,
        Gpio.MODE_INPUT_PULLUP, Gpio.MODE_INPUT_PULLDOWN]
  · rcases hmode with h | h | h <;> subst h
    · simpa [Gpio.MODE_INPUT_PULLUP, Gpio.MODE_INPUT_PULLDOWN,
        Gpio.MODE_INPUT_NOPULL] using andNot_and p1 3
    · simpa [Gpio.MODE_INPUT_PULLUP] using
        or_and_of (andNot p1 3) 2 3 (andNot_and p1 3) (by decide)
    · simpa [Gpio.MODE_INPUT_PULLUP, Gpio.MODE_INPUT_PULLDOWN] using
        or_and_of (andNot p1 3) 1 3 (andNot_and p1 3) (by decide)

/-- Evaluation of C5: pull-up init of pin 21 with concrete register reads. -/
theorem c5_witness :
    Gpio.init gcfg0 21 Gpio.MODE_INPUT_PULLUP 4095 7 5 =
      [(8, 4039), (148, 6), (152, 2097152), (148, 4), (152, 0)] := by
  have h := (c5_init_input_pull_protocol gcfg0 21 Gpio.MODE_INPUT_PULLUP
    4095 7 5 (Or.inr (Or.inl rfl))).1
  rw [h]
  decide

/-- Claim C6: `stop()` first disables the pacing peripheral by writing 0 to
the PWM control register, then issues three successive writes to the DMA
channel's status register: one with the abort bit set, one with the active
bit cleared, one with the reset bit set; the trace has fixed length and
contains no sleeps — `stop` returns immediately without polling for
quiescence. -/
theorem c6_stop_trace (cfg : DmaCfg) (csVal : Nat) :
    DmaGpio.stop cfg csVal =
      [Ev.wrE Periph.pwm cfg.PWM_CTL 0,
       Ev.rd Periph.dma DmaGpio.chanAddr,
       Ev.wrE Periph.dma DmaGpio.chanAddr (csVal ||| cfg.DMA_CS_ABORT),
       Ev.wrE Periph.dma DmaGpio.chanAddr
         (andNot (csVal ||| cfg.DMA_CS_ABORT) cfg.DMA_CS_ACTIVE),
       Ev.wrE Periph.dma DmaGpio.chanAddr
         (andNot (csVal ||| cfg.DMA_CS_ABORT) cfg.DMA_CS_ACTIVE |||
           cfg.DMA_CS_RESET)] ∧
    DmaGpio.chanAddr = 0x100 * 5 ∧
    (csVal ||| cfg.DMA_CS_ABORT) &&& cfg.DMA_CS_ABORT = cfg.DMA_CS_ABORT ∧
    andNot (csVal ||| cfg.DMA_CS_ABORT) cfg.DMA_CS_ACTIVE &&&
      cfg.DMA_CS_ACTIVE = 0 ∧
    (andNot (csVal ||| cfg.DMA_CS_ABORT) cfg.DMA_CS_ACTIVE |||
      cfg.DMA_CS_RESET) &&& cfg.DMA_CS_RESET = cfg.DMA_CS_RESET ∧
    (DmaGpio.stop cfg csVal).length = 5 ∧
    (∀ us, Ev.sleepUs us ∉ DmaGpio.stop cfg csVal) := by
  refine ⟨rfl, rfl, or_and_absorb _ _, andNot_and _ _, or_and_absorb _ _,
    rfl, ?_⟩
  intro us hmem
  simp [DmaGpio.stop] at hmem

/-- Evaluation of C6 at a concrete status-register read value. -/
theorem c6_witness :
    DmaGpio.stop cfg0 4 =
      [Ev.wrE Periph.pwm 0 0, Ev.rd Periph.dma 1280,
       Ev.wrE Periph.dma 1280 1073741828,
       Ev.wrE Periph.dma 1280 1073741828,
       Ev.wrE Periph.dma 1280 3221225476] := by
  have h := (c6_stop_trace cfg0 4).1
  rw [h]
  decide

/-- The busy-wait loop of `run_stream` is bounded: if the `(i+n)`-th read of
the clock control register has the BUSY bit (bit 7) clear, the loop started
at read index `i` finishes within `n+1` reads (trace length at most
`2n + 1`), and every sleep between polls is exactly 10 µs. -/
theorem busyWait_bounded (cfg : DmaCfg) (oracle : Nat → Nat) (i n : Nat)
    (h : oracle (i + n) &&& (1 <<< 7) = 0) :
    ∃ t, DmaGpio.busyWait cfg oracle i (n + 1) = some t ∧
      t.length ≤ 2 * n + 1 ∧
      (∀ us, Ev.sleepUs us ∈ t → us = 10) := by
  induction n generalizing i with
  | zero =>
    have h0 : oracle i &&& (1 <<< 7) = 0 := by simpa using h
    refine ⟨[Ev.rd Periph.clock cfg.CM_CNTL], ?_, by simp, ?_⟩
    · simp only [DmaGpio.busyWait, if_neg (not_not_intro h0)]
    · intro us hus
      simp at hus
  | succ n ih =>
    by_cases hb : oracle i &&& (1 <<< 7) ≠ 0
    · have h' : oracle (i + 1 + n) &&& (1 <<< 7) = 0 := by
        have he : i + 1 + n = i + (n + 1) := by omega
        rw [he]
        exact h
      obtain ⟨t, ht, hl, hs⟩ := ih (i + 1) h'
      refine ⟨Ev.rd Periph.clock cfg.CM_CNTL :: Ev.sleepUs 10 :: t, ?_, ?_, ?_⟩
      · conv_lhs => rw [DmaGpio.busyWait]
        rw [if_pos hb, ht, Option.map_some']
      · simp only [List.length_cons]
        omega
      · intro us hus
        simp only [List.mem_cons] at hus
        rcases hus with h1 | h1 | h1
        · exact Ev.noConfusion h1
        · exact (Ev.sleepUs.injEq us 10).mp h1
        · exact hs us h1
    · push_neg at hb
      refine ⟨[Ev.rd Periph.clock cfg.CM_CNTL], ?_, by simp, ?_⟩
      · simp only [DmaGpio.busyWait, if_neg (not_not_intro hb)]
      · intro us hus
        simp at hus

/-- Claim C9: the only operation that blocks on hardware completion is the
busy-wait inside `run()`/`run_stream()` while disabling the clock: it polls
the clock-control register's BUSY bit sleeping 10 µs between polls, and once
some poll reads the bit clear it terminates within that bounded number of
polls; `stop()` (the other hardware-programming operation) has a fixed
five-event trace without sleeps, and the append operations touch no hardware
at all (their results are pure buffer states). -/
theorem c9_only_bounded_busy_wait (cfg : DmaCfg) (s : DmaState)
    (oracle : Nat → Nat) (csVal n : Nat)
    (h : oracle n &&& (1 <<< 7) = 0) :
    (∃ t, DmaGpio.busyWait cfg oracle 0 (n + 1) = some t ∧
      t.length ≤ 2 * n + 1 ∧ (∀ us, Ev.sleepUs us ∈ t → us = 10)) ∧
    DmaGpio.run_stream cfg s oracle csVal (n + 1) ≠ none ∧
    (DmaGpio.stop cfg csVal).length = 5 ∧
    (∀ us, Ev.sleepUs us ∉ DmaGpio.stop cfg csVal) := by
  have h0 : oracle (0 + n) &&& (1 <<< 7) = 0 := by simpa using h
  obtain ⟨t, ht, hl, hs⟩ := busyWait_bounded cfg oracle 0 n h0
  refine ⟨⟨t, ht, hl, hs⟩, ?_, rfl, ?_⟩
  · simp [DmaGpio.run_stream, ht]
  · intro us hmem
    simp [DmaGpio.stop] at hmem

/-- Evaluation of C9 with an oracle whose BUSY bit stays set for the first
three polls. -/
theorem c9_witness :
    (∃ t, DmaGpio.busyWait cfg0 (fun i => if i < 3 then 128 else 0) 0 4 =
        some t ∧
      t.length ≤ 2 * 3 + 1 ∧ (∀ us, Ev.sleepUs us ∈ t → us = 10)) ∧
    DmaGpio.run_stream cfg0 stBuilt (fun i => if i < 3 then 128 else 0) 0 4 ≠
      none := by
  have h := c9_only_bounded_busy_wait cfg0 stBuilt
    (fun i => if i < 3 then 128 else 0) 0 3 (by norm_num)
  exact ⟨h.1, h.2.1⟩
